import Mathlib

/-!
Verification development for the teeny-tiny-router repository.

The definitions below are a shallow embedding of the JavaScript source:
`src/utils.js` (path normalization and pattern matching) and `src/index.js`
(the `MiniRouter` class: page cache, prefetch, navigation orchestration and
the hover-prefetch scheduler).  Strings are modelled as Lean `String`
(lists of unicode scalar values), JS objects and `Map`s as association
lists, and the external collaborators (the `fetch` transport and the
DOM-based HTML extraction) as function parameters, following the
interfaces the source calls into.
-/

namespace TinyRouter

/-! ### Association lists: JS objects and `Map`s.

JS object/`Map` assignment overwrites the value of an existing key while
keeping its position, and appends a fresh key at the end. -/

def assocGet {κ α : Type} [DecidableEq κ] : List (κ × α) → κ → Option α
  | [], _ => none
  | (k', v) :: rest, k => if k' = k then some v else assocGet rest k

def assocSet {κ α : Type} [DecidableEq κ] : List (κ × α) → κ → α → List (κ × α)
  | [], k, v => [(k, v)]
  | (k', v') :: rest, k, v =>
      if k' = k then (k, v) :: rest else (k', v') :: assocSet rest k v

def assocDel {κ α : Type} [DecidableEq κ] : List (κ × α) → κ → List (κ × α)
  | [], _ => []
  | (k', v') :: rest, k => if k' = k then rest else (k', v') :: assocDel rest k

/-! ### `normalizePath` (src/utils.js lines 4-19) -/

/-- `path.split(/[?#]/)[0]`: the prefix before the first `?` or `#`. -/
def beforeQueryHash : List Char → List Char
  | [] => []
  | c :: cs => if c = '?' ∨ c = '#' then [] else c :: beforeQueryHash cs

/-- `p.replace(/\/+$/, "")`: drop every trailing `/`. -/
def dropTrailingSlashes (l : List Char) : List Char :=
  (l.reverse.dropWhile (fun c => c = '/')).reverse

def lowerChars (l : List Char) : List Char := l.map Char.toLower

/-- Case-insensitive suffix test, as a JS `/sfx$/i` regex performs it
(ASCII case folding, which is what a non-unicode JS regex does). -/
def endsWithCI (l sfx : List Char) : Prop :=
  lowerChars (l.reverse.take sfx.length) = lowerChars sfx.reverse

instance (l sfx : List Char) : Decidable (endsWithCI l sfx) := by
  unfold endsWithCI; infer_instance

/-- `p.replace(/sfx$/i, "")` for a fixed literal suffix. -/
def stripSuffixCI (l sfx : List Char) : List Char :=
  if endsWithCI l sfx then (l.reverse.drop sfx.length).reverse else l

def htmlSfx : List Char := ['.', 'h', 't', 'm', 'l']

def indexSfx : List Char := ['/', 'i', 'n', 'd', 'e', 'x']

/-- `if (!p.startsWith("/")) p = "/" + p` (`startsWith` of a one-char
needle is a head test, false on the empty string). -/
def ensureLeadingSlash (l : List Char) : List Char :=
  if l.head? = some '/' then l else '/' :: l

/-- `if (p.length > 1) p = p.replace(/\/+$/, "")`. -/
def stripTrailingIfLong (l : List Char) : List Char :=
  if 1 < l.length then dropTrailingSlashes l else l

/-- `if (p !== "/") p = p.replace(/\.html$/i, "")`. -/
def stripHtmlUnlessRoot (l : List Char) : List Char :=
  if l ≠ ['/'] then stripSuffixCI l htmlSfx else l

/-- `normalizePath` from src/utils.js, on the character list of the input:
the five transformation steps applied in source order (JS `!path` is true
exactly for the empty string). -/
def normList (p : List Char) : List Char :=
  if p = [] then ['/']
  else
    ensureLeadingSlash
      (stripTrailingIfLong
        (stripSuffixCI
          (stripHtmlUnlessRoot
            (stripTrailingIfLong (beforeQueryHash p)))
          indexSfx))

def normalizePath (s : String) : String := ⟨normList s.data⟩

/-! ### `decodeURIComponent` (ECMA-262 Decode with an empty reserved set)

The JS builtin called by `parsePath`: percent-escapes are read as bytes,
byte groups must form a valid UTF-8 encoding of a unicode scalar value,
and any malformed escape or invalid byte sequence throws `URIError`
(modelled as `none`). -/

def hexDigitVal (c : Char) : Option Nat :=
  if '0' ≤ c ∧ c ≤ '9' then some (c.toNat - '0'.toNat)
  else if 'a' ≤ c ∧ c ≤ 'f' then some (c.toNat - 'a'.toNat + 10)
  else if 'A' ≤ c ∧ c ≤ 'F' then some (c.toNat - 'A'.toNat + 10)
  else none

/-- Split the input into literal characters and `%XX` escape bytes.
A `%` not followed by two hex digits throws. -/
def tokenizePercent : List Char → Option (List (Sum Char Nat))
  | [] => some []
  | '%' :: h1 :: h2 :: r =>
      match hexDigitVal h1, hexDigitVal h2 with
      | some a, some b =>
          match tokenizePercent r with
          | some t => some (.inr (16 * a + b) :: t)
          | none => none
      | _, _ => none
  | '%' :: _ => none
  | c :: r =>
      match tokenizePercent r with
      | some t => some (.inl c :: t)
      | none => none

def isCont (b : Nat) : Prop := 0x80 ≤ b ∧ b ≤ 0xBF

instance (b : Nat) : Decidable (isCont b) := by unfold isCont; infer_instance

/-- Decode the token stream: escape bytes must form valid UTF-8 sequences
(no overlong forms, no surrogates, max U+10FFFF); literal characters pass
through. -/
def decodeBytes : List (Sum Char Nat) → Option (List Char)
  | [] => some []
  | .inl c :: r =>
      match decodeBytes r with
      | some t => some (c :: t)
      | none => none
  | .inr b :: r =>
      if b < 0x80 then
        match decodeBytes r with
        | some t => some (Char.ofNat b :: t)
        | none => none
      else if 0xC2 ≤ b ∧ b ≤ 0xDF then
        match r with
        | .inr b2 :: r2 =>
            if isCont b2 then
              match decodeBytes r2 with
              | some t => some (Char.ofNat ((b - 0xC0) * 64 + (b2 - 0x80)) :: t)
              | none => none
            else none
        | _ => none
      else if 0xE0 ≤ b ∧ b ≤ 0xEF then
        match r with
        | .inr b2 :: .inr b3 :: r2 =>
            if ((b = 0xE0 ∧ 0xA0 ≤ b2 ∧ b2 ≤ 0xBF) ∨
                (0xE1 ≤ b ∧ b ≤ 0xEC ∧ isCont b2) ∨
                (b = 0xED ∧ 0x80 ≤ b2 ∧ b2 ≤ 0x9F) ∨
                (0xEE ≤ b ∧ b ≤ 0xEF ∧ isCont b2)) ∧ isCont b3 then
              match decodeBytes r2 with
              | some t =>
                  some (Char.ofNat ((b - 0xE0) * 4096 + (b2 - 0x80) * 64 + (b3 - 0x80)) :: t)
              | none => none
            else none
        | _ => none
      else if 0xF0 ≤ b ∧ b ≤ 0xF4 then
        match r with
        | .inr b2 :: .inr b3 :: .inr b4 :: r2 =>
            if ((b = 0xF0 ∧ 0x90 ≤ b2 ∧ b2 ≤ 0xBF) ∨
                (0xF1 ≤ b ∧ b ≤ 0xF3 ∧ isCont b2) ∨
                (b = 0xF4 ∧ 0x80 ≤ b2 ∧ b2 ≤ 0x8F)) ∧ isCont b3 ∧ isCont b4 then
              match decodeBytes r2 with
              | some t =>
                  some (Char.ofNat
                    ((b - 0xF0) * 262144 + (b2 - 0x80) * 4096 + (b3 - 0x80) * 64 + (b4 - 0x80)) :: t)
              | none => none
            else none
        | _ => none
      else none

def decodeURIComponentList (l : List Char) : Option (List Char) :=
  match tokenizePercent l with
  | some toks => decodeBytes toks
  | none => none

/-! ### `parsePath` (src/utils.js lines 21-54) -/

/-- `pattern.split("/").filter(Boolean)` applied after normalization. -/
def splitSlashAux : List Char → List Char → List (List Char)
  | [], acc => [acc.reverse]
  | '/' :: r, acc => acc.reverse :: splitSlashAux r []
  | c :: r, acc => splitSlashAux r (c :: acc)

def nonEmptySegs (l : List Char) : List (List Char) :=
  (splitSlashAux l []).filter (fun s => s ≠ [])

def pSegs (s : String) : List (List Char) := nonEmptySegs (normList s.data)

/-- Result of `parsePath`: a thrown `URIError` from `decodeURIComponent`,
`null`, or the params object. -/
inductive MatchResult
  | thrown
  | noMatch
  | matched (params : List (String × String))
deriving DecidableEq

/-- The `for` loop of `parsePath`: walk pattern segments against URL
segments, accumulating the `params` object. -/
def matchSegs : List (List Char) → List (List Char) → List (String × String) → MatchResult
  | [], _, params => .matched params
  | a :: as, bs, params =>
    if a = ['*'] then
      match decodeURIComponentList (List.intercalate ['/'] bs) with
      | none => .thrown
      | some d => .matched (assocSet params "*" ⟨d⟩)
    else if a.head? = some ':' then
      match bs.head? with
      | none => .noMatch
      | some b =>
        if b = [] then .noMatch
        else
          match decodeURIComponentList b with
          | none => .thrown
          | some d => matchSegs as bs.tail (assocSet params (⟨a.drop 1⟩ : String) ⟨d⟩)
    else
      match bs.head? with
      | none => .noMatch
      | some b => if a = b then matchSegs as bs.tail params else .noMatch

def parsePath (pattern urlPath : String) : MatchResult :=
  let ptnSeg := pSegs pattern
  let urlSeg := pSegs urlPath
  let hasWildcard := ptnSeg.getLast? = some ['*']
  if ¬hasWildcard ∧ ptnSeg.length ≠ urlSeg.length then .noMatch
  else if hasWildcard ∧ urlSeg.length < ptnSeg.length - 1 then .noMatch
  else matchSegs ptnSeg urlSeg []

/-! ### The `MiniRouter` class (src/index.js)

JS objects holding page content (`{title, body, ...}`) are association
lists from field name to string value; the page cache (`this.cache`, a
`Map` keyed by the raw URL) is an association list from URL to content
object.  The fetch transport and the DOM-based `parseHTML` collaborator
are passed in as functions, per the interfaces the source calls. -/

def Obj : Type := List (String × String)

instance : DecidableEq Obj := by unfold Obj; infer_instance

def Cache : Type := List (String × Obj)

instance : DecidableEq Cache := by unfold Cache; infer_instance

/-- `{...base, ...fields}`: shallow merge, later fields override. -/
def objMerge (base : Obj) (fields : Obj) : Obj :=
  fields.foldl (fun acc kv => assocSet acc kv.1 kv.2) base

/-- Events emitted through `this.emit` during the runs we model.
`routeMatched` carries the pattern, the `ctx` object (`{url, ...finalData}`
as of just before the handler ran) and the `params` object, mirroring the
`route:${pattern}` event payload `{...ctx, params}`. -/
inductive Evt
  | prefetchDone (url : String) (data : Obj)
  | prefetchError (url : String) (err : String)
  | routeMatched (pattern : String) (ctx : Obj) (params : Obj)
  | navigateEvt (payload : Obj)
deriving DecidableEq

/-- A route handler's return value, resolved the way `navigate` inspects
it: `null`/`undefined` (and any non-string non-object value) does
nothing, a string replaces the body, an object is shallow-merged. -/
inductive HandlerResult
  | nil
  | str (s : String)
  | obj (fields : Obj)

def Handler : Type := Obj → HandlerResult

/-- `this._normalizeUrl` (src/index.js lines 54-61): strip query/hash;
with the `htmlExtension` option on, append `.html` to a non-root URL not
already ending in it (case-sensitive `endsWith`). -/
def normalizeUrl (htmlExtension : Bool) (url : String) : String :=
  let clean := beforeQueryHash url.data
  if htmlExtension = true ∧ ¬ clean.reverse.take 5 = htmlSfx.reverse ∧ clean ≠ ['/']
  then ⟨clean ++ htmlSfx⟩ else ⟨clean⟩

/-- The fallback content synthesized by `fetchPage` when a non-prefetch
fetch rejects (`String(err)` is modelled as the error string itself). -/
def errorFallback (err : String) : Obj :=
  [("title", "Error"), ("body", "<h1>Network Error</h1><pre>" ++ err ++ "</pre>")]

instance {ε α : Type} [DecidableEq ε] [DecidableEq α] : DecidableEq (Except ε α) := fun x y =>
  match x, y with
  | .ok a, .ok b =>
      if h : a = b then isTrue (by rw [h]) else isFalse (fun hh => by cases hh; exact h rfl)
  | .error a, .error b =>
      if h : a = b then isTrue (by rw [h]) else isFalse (fun hh => by cases hh; exact h rfl)
  | .ok _, .error _ => isFalse (fun hh => by cases hh)
  | .error _, .ok _ => isFalse (fun hh => by cases hh)

structure FetchOut where
  cache : Cache
  events : List Evt
  fetchLog : List String
  result : Except String Obj
deriving DecidableEq

/-- `fetchPage` (src/index.js lines 179-214).  `fetchFn` is the external
fetch transport (response text, or a transport error); `parse` is the
`parseHTML` collaborator applied with the configured content selector.
`fetchLog` records each URL handed to the transport. -/
def fetchPage (fetchFn : String → Except String String) (parse : String → Obj)
    (cache : Cache) (url : String) (isPrefetch : Bool) : FetchOut :=
  match assocGet cache url with
  | some data => ⟨cache, [], [], .ok data⟩
  | none =>
    match fetchFn url with
    | .ok text =>
        let data := parse text
        ⟨assocSet cache url data,
         if isPrefetch then [.prefetchDone url data] else [], [url], .ok data⟩
    | .error err =>
        if isPrefetch then
          ⟨cache, [.prefetchError url err], [url], .error err⟩
        else
          ⟨assocSet cache url (errorFallback err), [], [url], .ok (errorFallback err)⟩

structure PrefetchOut where
  cache : Cache
  events : List Evt
  fetchLog : List String
  /-- A rejected promise would be `.error`; the source's `try/catch`
  swallows every rejection, so the model always produces `.ok ()`. -/
  result : Except String Unit
deriving DecidableEq

/-- `prefetch` (src/index.js lines 221-231): no-op on a cache hit,
otherwise `fetchPage(url, true)` with every rejection caught (the catch
only logs to `console.debug`). -/
def prefetch (fetchFn : String → Except String String) (parse : String → Obj)
    (cache : Cache) (url : String) : PrefetchOut :=
  match assocGet cache url with
  | some _ => ⟨cache, [], [], .ok ()⟩
  | none =>
    let out := fetchPage fetchFn parse cache url true
    match out.result with
    | .ok _ => ⟨out.cache, out.events, out.fetchLog, .ok ()⟩
    | .error _ => ⟨out.cache, out.events, out.fetchLog, .ok ()⟩

def applyResult (fd : Obj) : HandlerResult → Obj
  | .nil => fd
  | .str s => assocSet fd "body" s
  | .obj fields => objMerge fd fields

/-- The route loop of `navigate` (src/index.js lines 239-258): iterate the
registered routes in registration order; on a match build `ctx`, invoke
the handler, apply its override, and emit the `route:${pattern}` event.
A `URIError` from `parsePath` propagates (`.error`); events emitted before
the throw are still reported in the first component. -/
def runRoutes (matchUrl url : String) :
    List (String × Handler) → Obj → List Evt × Except String Obj
  | [], fd => ([], .ok fd)
  | (pattern, cb) :: rest, fd =>
    match parsePath pattern matchUrl with
    | .thrown => ([], .error "URIError: URI malformed")
    | .noMatch => runRoutes matchUrl url rest fd
    | .matched params =>
        let ctx := objMerge [("url", url)] fd
        let out := runRoutes matchUrl url rest (applyResult fd (cb params))
        (.routeMatched pattern ctx params :: out.1, out.2)

inductive HistoryOp
  | push (title url : String)
  | replace (title url : String)
deriving DecidableEq

structure NavOut where
  cache : Cache
  events : List Evt
  fetchLog : List String
  /-- `.error` when the route loop threw; otherwise the final payload
  `{url, ...finalData}` handed to rendering. -/
  result : Except String Obj
  history : Option HistoryOp
deriving DecidableEq

/-- `navigate` (src/index.js lines 233-284).  `hasCustomNavigate` models
whether any listener is registered for the `navigate` event; `docTitle`
models `document.title` for the history-title fallback.  The default
render and script execution are DOM collaborators and produce no modelled
state; on a throw from the route loop the history update never runs. -/
def navigate (fetchFn : String → Except String String) (parse : String → Obj)
    (htmlExtension : Bool) (routes : List (String × Handler))
    (hasCustomNavigate : Bool) (docTitle : String)
    (cache : Cache) (rawUrl : String) (replace : Bool) : NavOut :=
  let url := rawUrl
  let matchUrl := normalizeUrl htmlExtension rawUrl
  let f := fetchPage fetchFn parse cache rawUrl false
  match f.result with
  | .error e => ⟨f.cache, f.events, f.fetchLog, .error e, none⟩
  | .ok data =>
    let out := runRoutes matchUrl url routes data
    match out.2 with
    | .error e => ⟨f.cache, f.events ++ out.1, f.fetchLog, .error e, none⟩
    | .ok finalData =>
        let payload := objMerge [("url", url)] finalData
        let evts := if hasCustomNavigate then f.events ++ out.1 ++ [.navigateEvt payload]
                    else f.events ++ out.1
        let title := match assocGet finalData "title" with
          | some t => if t = "" then docTitle else t
          | none => docTitle
        ⟨f.cache, evts, f.fetchLog, .ok payload,
         some (if replace then .replace title rawUrl else .push title rawUrl)⟩

/-- The value the `fetch` builtin resolves with: a response carrying an
HTTP status code and (through `res.text()`) its body text.  `fetch`
resolves for every status — including non-2xx — and rejects only on
transport errors. -/
structure FetchResponse where
  status : Nat
  text : String
deriving DecidableEq

/-- `fetchPage` consumes the resolved response solely through
`res.text()` (src/index.js lines 187-191); `res.ok` and `res.status` are
never read.  At the text level the transport collaborator is therefore
this composition, which forgets the status. -/
def asTextFetch (fetchFn : String → Except String FetchResponse) :
    String → Except String String :=
  fun url =>
    match fetchFn url with
    | .ok res => .ok res.text
    | .error err => .error err

/-- `navigate` with the transport modelled at response granularity: the
body is `navigate` itself over the text of each resolved response,
because the source never inspects the response status. -/
def navigateHTTP (fetchFn : String → Except String FetchResponse) (parse : String → Obj)
    (htmlExtension : Bool) (routes : List (String × Handler)) (hasCustomNavigate : Bool)
    (docTitle : String) (cache : Cache) (rawUrl : String) (replace : Bool) : NavOut :=
  navigate (asTextFetch fetchFn) parse htmlExtension routes hasCustomNavigate docTitle
    cache rawUrl replace

/-! ### The hover-prefetch scheduler
(src/index.js: constructor lines 32-52, `_initPrefetchHandler` lines
103-162, `setPrefetchOnHover` lines 323-332)

`installed` records whether `_initPrefetchHandler` attached the DOM
listeners (it returns early when `prefetchOnHover` is false at
construction; the listeners, once attached, never consult the flag
again).  Timers are modelled explicitly: `activeTimers` holds the
timeouts that have been set and neither fired nor cleared; browser
timeout ids start at 1, which matters because `hoverLeave` tests the
looked-up id for JS truthiness.  `prefetchCalls` records each invocation
of `this.prefetch(href)`, in order. -/

structure Sched where
  installed : Bool
  prefetchOnHover : Bool
  prefetchDelay : Nat
  prefetchTimeouts : List (Nat × Nat)
  nextTimerId : Nat
  activeTimers : List (Nat × String)
  prefetchCalls : List String
deriving DecidableEq

def initSched (prefetchOnHover : Bool) (prefetchDelay : Nat) : Sched :=
  ⟨prefetchOnHover, prefetchOnHover, prefetchDelay, [], 1, [], []⟩

/-- The `mouseenter` listener body.  `link` is the hovered element's
identity; `eligible` abstracts the DOM-side filters (an `a[href]` or
`[data-link]` element, same origin, not `_blank`/`download`/external-rel,
no `data-no-prefetch`).  Note the listener never re-checks
`this.prefetchOnHover`. -/
def hoverEnter (st : Sched) (link : Nat) (href : String) (eligible : Bool) : Sched :=
  if st.installed = false then st
  else if eligible = false then st
  else if st.prefetchDelay = 0 then
    { st with prefetchCalls := st.prefetchCalls ++ [href] }
  else
    { st with
      activeTimers := st.activeTimers ++ [(st.nextTimerId, href)],
      prefetchTimeouts := assocSet st.prefetchTimeouts link st.nextTimerId,
      nextTimerId := st.nextTimerId + 1 }

/-- The `mouseleave` listener body (attached only when the configured
delay was positive at construction). -/
def hoverLeave (st : Sched) (link : Nat) : Sched :=
  if st.installed = false ∨ st.prefetchDelay = 0 then st
  else
    match assocGet st.prefetchTimeouts link with
    | none => st
    | some tid =>
        if tid = 0 then st
        else
          { st with
            activeTimers := st.activeTimers.filter (fun t => t.1 ≠ tid),
            prefetchTimeouts := assocDel st.prefetchTimeouts link }

/-- A scheduled timeout fires: possible only while it is still active
(`clearTimeout` removes it from `activeTimers`); the callback invokes
`this.prefetch(href)` and does not touch the bookkeeping map. -/
def timerFire (st : Sched) (tid : Nat) : Sched :=
  match assocGet st.activeTimers tid with
  | none => st
  | some href =>
      { st with
        activeTimers := st.activeTimers.filter (fun t => t.1 ≠ tid),
        prefetchCalls := st.prefetchCalls ++ [href] }

/-- `setPrefetchOnHover` (src/index.js lines 323-332): store the flag;
when disabling, `clearTimeout` every id in the bookkeeping map and clear
the map. -/
def setPrefetchOnHover (st : Sched) (enabled : Bool) : Sched :=
  let st' := { st with prefetchOnHover := enabled }
  if enabled then st'
  else
    { st' with
      activeTimers :=
        st'.activeTimers.filter (fun t => ¬ (st'.prefetchTimeouts.any (fun e => e.2 = t.1))),
      prefetchTimeouts := [] }

/-! ### Specification-side definitions used by the theorems below -/

/-- The named parameters a pattern's segment list declares before its
first `*` segment (the segments the matching walk can reach). -/
def namedBefore : List (List Char) → List String
  | [] => []
  | a :: as =>
    if a = ['*'] then []
    else if a.head? = some ':' then (⟨a.drop 1⟩ : String) :: namedBefore as
    else namedBefore as

/-- The registered routes that match a given normalized URL, in
registration order, paired with their parameter objects. -/
def matchingWithParams (routes : List (String × Handler)) (matchUrl : String) :
    List (String × Handler × Obj) :=
  routes.filterMap (fun pr =>
    match parsePath pr.1 matchUrl with
    | .matched ps => some (pr.1, pr.2, ps)
    | _ => none)

/-- Fold the matching handlers' overrides over a starting content object,
in order. -/
def overlayFold (fd : Obj) (l : List (String × Handler × Obj)) : Obj :=
  l.foldl (fun acc x => applyResult acc (x.2.1 x.2.2)) fd

/-- Project a `route:${pattern}` event to its pattern and params. -/
def routeEvtInfo : Evt → Option (String × Obj)
  | .routeMatched p _ ps => some (p, ps)
  | _ => none

/-- The two-route scenario of the spec's worked example: `/posts/:id`
overlays `{title: "A"}`, then `/posts/*` returns the string `"B"`. -/
def postsDemoRoutes : List (String × Handler) :=
  [("/posts/:id", fun _ => .obj [("title", "A")]), ("/posts/*", fun _ => .str "B")]

def postsDemoFetch : String → Except String String := fun _ => .ok "<html>"

def postsDemoParse : String → Obj := fun _ => [("title", "Home"), ("body", "orig")]

/-- A server that answers every URL with a `404 Not Found` page: the
fetch promise resolves (fetch does not reject on a non-2xx status). -/
def demo404Fetch : String → Except String FetchResponse :=
  fun _ => .ok ⟨404, "<html><head><title>404 Not Found</title></head><body>missing</body></html>"⟩

/-- The `parseHTML` collaborator's output on the 404 page above. -/
def demo404Parse : String → Obj :=
  fun _ => [("title", "404 Not Found"), ("body", "missing")]

/-- A transport that rejects every request with a network error. -/
def demoRejectFetch : String → Except String FetchResponse := fun _ => .error "boom"

def demoOkFetch : String → Except String FetchResponse := fun _ => .ok ⟨200, "<html>"⟩

/-! ### Lemmas about association lists -/

theorem assocGet_assocSet {κ α : Type} [DecidableEq κ] (m : List (κ × α)) (k k' : κ) (v : α) :
    assocGet (assocSet m k v) k' = if k = k' then some v else assocGet m k' := by
  induction m with
  | nil =>
      simp only [assocSet, assocGet]
  | cons kv rest ih =>
      obtain ⟨a, b⟩ := kv
      by_cases hak : a = k
      · subst hak
        simp only [assocSet, if_pos rfl, assocGet]
        by_cases hk : a = k' <;> simp [hk]
      · simp only [assocSet, if_neg hak, assocGet]
        by_cases hak' : a = k'
        · subst hak'
          have : ¬ k = a := fun h => hak h.symm
          simp [this]
        · simp [hak', ih]

theorem assocGet_assocSet_self {κ α : Type} [DecidableEq κ] (m : List (κ × α)) (k : κ) (v : α) :
    assocGet (assocSet m k v) k = some v := by
  rw [assocGet_assocSet, if_pos rfl]

theorem isSome_assocGet_assocSet {κ α : Type} [DecidableEq κ] (m : List (κ × α)) (k k' : κ)
    (v : α) (h : (assocGet m k').isSome) : (assocGet (assocSet m k v) k').isSome := by
  rw [assocGet_assocSet]
  by_cases hk : k = k'
  · simp [hk]
  · simpa [hk] using h

/-! ### Invariants of `normalizePath` -/

theorem not_mem_beforeQueryHash (l : List Char) (c : Char) (hc : c = '?' ∨ c = '#') :
    c ∉ beforeQueryHash l := by
  induction l with
  | nil => simp [beforeQueryHash]
  | cons a r ih =>
      simp only [beforeQueryHash]
      by_cases h : a = '?' ∨ a = '#'
      · simp [h]
      · rw [if_neg h]
        intro hm
        rcases List.mem_cons.mp hm with he | hm'
        · exact h (he ▸ hc)
        · exact ih hm'

theorem beforeQueryHash_eq_self (l : List Char) (h : ∀ c ∈ l, ¬(c = '?' ∨ c = '#')) :
    beforeQueryHash l = l := by
  induction l with
  | nil => rfl
  | cons a r ih =>
      simp only [beforeQueryHash]
      rw [if_neg (h a (List.mem_cons_self a r))]
      rw [ih (fun c hc => h c (List.mem_cons_of_mem a hc))]

theorem mem_dropTrailingSlashes {c : Char} {l : List Char} (h : c ∈ dropTrailingSlashes l) :
    c ∈ l := by
  simp only [dropTrailingSlashes, List.mem_reverse] at h
  exact List.mem_reverse.mp ((List.dropWhile_sublist _).mem h)

theorem mem_stripSuffixCI {c : Char} {l sfx : List Char} (h : c ∈ stripSuffixCI l sfx) :
    c ∈ l := by
  simp only [stripSuffixCI] at h
  by_cases he : endsWithCI l sfx
  · rw [if_pos he] at h
    simp only [List.mem_reverse] at h
    exact List.mem_reverse.mp ((List.drop_sublist _ _).mem h)
  · rwa [if_neg he] at h

theorem mem_ensureLeadingSlash {c : Char} {l : List Char} (h : c ∈ ensureLeadingSlash l) :
    c = '/' ∨ c ∈ l := by
  simp only [ensureLeadingSlash] at h
  by_cases hh : l.head? = some '/'
  · rw [if_pos hh] at h; exact Or.inr h
  · rw [if_neg hh] at h
    rcases List.mem_cons.mp h with he | hm
    · exact Or.inl he
    · exact Or.inr hm

theorem head?_dropWhile_slash_ne (m : List Char) (c : Char)
    (h : (m.dropWhile (fun c => c = '/')).head? = some c) : c ≠ '/' := by
  induction m with
  | nil => simp [List.dropWhile] at h
  | cons a r ih =>
      rw [List.dropWhile_cons] at h
      by_cases hp : a = '/'
      · rw [if_pos (by simpa using hp)] at h
        exact ih h
      · rw [if_neg (by simpa using hp)] at h
        simp only [List.head?_cons, Option.some.injEq] at h
        exact h ▸ hp

theorem dropTrailingSlashes_reverse (l : List Char) :
    (dropTrailingSlashes l).reverse = l.reverse.dropWhile (fun c => c = '/') := by
  simp [dropTrailingSlashes]

theorem dropTrailingSlashes_last_ne (l : List Char) (c : Char)
    (h : (dropTrailingSlashes l).reverse.head? = some c) : c ≠ '/' := by
  rw [dropTrailingSlashes_reverse] at h
  exact head?_dropWhile_slash_ne _ _ h

theorem dropTrailingSlashes_eq_self (l : List Char)
    (h : ∀ c, l.reverse.head? = some c → c ≠ '/') : dropTrailingSlashes l = l := by
  unfold dropTrailingSlashes
  cases hm : l.reverse with
  | nil =>
      simp only [List.dropWhile_nil]
      rw [← hm, List.reverse_reverse]
  | cons a r =>
      have ha : ¬ (a = '/') := h a (by rw [hm]; rfl)
      rw [List.dropWhile_cons_of_neg (by simpa using ha), ← hm, List.reverse_reverse]

theorem stripSuffixCI_eq_self (l sfx : List Char) (h : ¬ endsWithCI l sfx) :
    stripSuffixCI l sfx = l := by
  simp [stripSuffixCI, h]

theorem mem_stripTrailingIfLong {c : Char} {l : List Char} (h : c ∈ stripTrailingIfLong l) :
    c ∈ l := by
  simp only [stripTrailingIfLong] at h
  by_cases hl : 1 < l.length
  · rw [if_pos hl] at h; exact mem_dropTrailingSlashes h
  · rwa [if_neg hl] at h

theorem mem_stripHtmlUnlessRoot {c : Char} {l : List Char} (h : c ∈ stripHtmlUnlessRoot l) :
    c ∈ l := by
  simp only [stripHtmlUnlessRoot] at h
  by_cases hr : l ≠ ['/']
  · rw [if_pos hr] at h; exact mem_stripSuffixCI h
  · rwa [if_neg hr] at h

theorem head?_ensureLeadingSlash (l : List Char) :
    (ensureLeadingSlash l).head? = some '/' := by
  simp only [ensureLeadingSlash]
  by_cases hh : l.head? = some '/'
  · rw [if_pos hh]; exact hh
  · rw [if_neg hh]; rfl

/-- `ensureLeadingSlash` preserves a non-`/` final character, and turns
a list that is empty or all-root into `['/']`. -/
theorem ensureLeadingSlash_last (l : List Char)
    (h : ∀ c, l.reverse.head? = some c → c ≠ '/') :
    ensureLeadingSlash l = ['/'] ∨
      ∀ c, (ensureLeadingSlash l).reverse.head? = some c → c ≠ '/' := by
  cases hn : l with
  | nil =>
      left
      simp [ensureLeadingSlash, hn]
  | cons x xs =>
      right
      intro c hc
      simp only [ensureLeadingSlash] at hc
      by_cases hh : (x :: xs).head? = some '/'
      · rw [if_pos hh] at hc
        exact h c (by rw [hn]; exact hc)
      · rw [if_neg hh] at hc
        have hrev : ('/' :: x :: xs).reverse = (x :: xs).reverse ++ ['/'] := by simp
        rw [hrev] at hc
        cases hr : (x :: xs).reverse with
        | nil => simp at hr
        | cons y ys =>
            rw [hr] at hc
            simp only [List.cons_append, List.head?_cons, Option.some.injEq] at hc
            exact hc ▸ h y (by rw [hn, hr]; rfl)

/-- The output of `stripTrailingIfLong` is short, or its final character
is not `/`. -/
theorem stripTrailingIfLong_last (l : List Char) :
    (stripTrailingIfLong l).length ≤ 1 ∨
      ∀ c, (stripTrailingIfLong l).reverse.head? = some c → c ≠ '/' := by
  simp only [stripTrailingIfLong]
  by_cases hl : 1 < l.length
  · right
    rw [if_pos hl]
    exact fun c hc => dropTrailingSlashes_last_ne l c hc
  · left
    rw [if_neg hl]
    exact Nat.le_of_not_lt hl

/-- The three structural invariants every `normalizePath` output enjoys:
it starts with `/`, contains no `?` or `#`, and ends in `/` only when it
is the root itself. -/
theorem normList_spec (p : List Char) :
    (normList p).head? = some '/' ∧
    (∀ c, (c = '?' ∨ c = '#') → c ∉ normList p) ∧
    (normList p = ['/'] ∨ ∀ c, (normList p).reverse.head? = some c → c ≠ '/') := by
  unfold normList
  by_cases hp : p = []
  · rw [if_pos hp]
    refine ⟨rfl, ?_, Or.inl rfl⟩
    intro c hc hm
    simp only [List.mem_singleton] at hm
    rcases hc with h | h <;> simp [hm] at h
  · rw [if_neg hp]
    refine ⟨head?_ensureLeadingSlash _, ?_, ?_⟩
    · intro c hc hm
      rcases mem_ensureLeadingSlash hm with he | hm5
      · rcases hc with h | h <;> simp [he] at h
      · exact not_mem_beforeQueryHash p c hc
          (mem_stripTrailingIfLong (mem_stripHtmlUnlessRoot (mem_stripSuffixCI
            (mem_stripTrailingIfLong hm5))))
    · rcases stripTrailingIfLong_last
        (stripSuffixCI (stripHtmlUnlessRoot (stripTrailingIfLong (beforeQueryHash p))) indexSfx)
        with hshort | hlast
      · -- the pre-final list has length ≤ 1: it is [], ['/'], or [c]
        cases hq : stripTrailingIfLong
            (stripSuffixCI (stripHtmlUnlessRoot (stripTrailingIfLong (beforeQueryHash p))) indexSfx)
          with
        | nil =>
            left
            simp [ensureLeadingSlash, hq]
        | cons x xs =>
            rw [hq] at hshort
            have hxs : xs = [] := by
              simpa using List.length_eq_zero.mp
                (Nat.le_zero.mp (Nat.succ_le_succ_iff.mp hshort))
            subst hxs
            by_cases hx : x = '/'
            · left
              subst hx
              simp [ensureLeadingSlash, hq]
            · right
              intro c hc
              simp only [ensureLeadingSlash, List.head?_cons] at hc
              rw [if_neg (by simp [hx])] at hc
              simp only [List.reverse_cons, List.reverse_nil, List.nil_append,
                List.cons_append, List.head?_cons, Option.some.injEq] at hc
              exact hc ▸ hx
      · exact ensureLeadingSlash_last _ hlast

theorem stripTrailingIfLong_eq_self (l : List Char)
    (h : l = ['/'] ∨ ∀ c, l.reverse.head? = some c → c ≠ '/') :
    stripTrailingIfLong l = l := by
  rcases h with h | h
  · subst h; simp [stripTrailingIfLong]
  · simp only [stripTrailingIfLong]
    by_cases hl : 1 < l.length
    · rw [if_pos hl]; exact dropTrailingSlashes_eq_self l h
    · rw [if_neg hl]

/-- A `normalizePath` output not still carrying a strippable `.html` or
`/index` suffix is a fixed point of `normalizePath`. -/
theorem normList_idem (p : List Char)
    (h1 : ¬ endsWithCI (normList p) htmlSfx)
    (h2 : ¬ endsWithCI (normList p) indexSfx) :
    normList (normList p) = normList p := by
  obtain ⟨hhead, hqh, hlast⟩ := normList_spec p
  set n := normList p with hn
  have hne : n ≠ [] := by
    intro h
    rw [h] at hhead
    simp at hhead
  conv_lhs => rw [normList]
  rw [if_neg hne]
  have e1 : beforeQueryHash n = n :=
    beforeQueryHash_eq_self n (fun c hc hor => hqh c hor hc)
  have e2 : stripTrailingIfLong n = n := stripTrailingIfLong_eq_self n hlast
  have e3 : stripHtmlUnlessRoot n = n := by
    simp only [stripHtmlUnlessRoot]
    by_cases hr : n ≠ ['/']
    · rw [if_pos hr]; exact stripSuffixCI_eq_self n htmlSfx h1
    · rw [if_neg hr]
  have e4 : stripSuffixCI n indexSfx = n := stripSuffixCI_eq_self n indexSfx h2
  have e5 : ensureLeadingSlash n = n := by
    simp only [ensureLeadingSlash]
    rw [if_pos hhead]
  rw [e1, e2, e3, e4, e2, e5]

/-! ### Lemmas about `matchSegs` and `parsePath` -/

/-- A successful matching walk binds every key already accumulated and
every named parameter among the segments it still has to visit. -/
theorem matchSegs_complete (as : List (List Char)) :
    ∀ (bs : List (List Char)) (acc : List (String × String)) (m : List (String × String)),
      matchSegs as bs acc = .matched m →
      (∀ k, (assocGet acc k).isSome → (assocGet m k).isSome) ∧
      (∀ k ∈ namedBefore as, (assocGet m k).isSome) := by
  induction as with
  | nil =>
      intro bs acc m h
      simp only [matchSegs, MatchResult.matched.injEq] at h
      subst h
      exact ⟨fun k hk => hk, by simp [namedBefore]⟩
  | cons a as ih =>
      intro bs acc m h
      simp only [matchSegs] at h
      by_cases hw : a = ['*']
      · rw [if_pos hw] at h
        cases hd : decodeURIComponentList (List.intercalate ['/'] bs) with
        | none => rw [hd] at h; cases h
        | some d =>
            rw [hd] at h
            simp only [MatchResult.matched.injEq] at h
            subst h
            refine ⟨fun k hk => isSome_assocGet_assocSet acc "*" k _ hk, ?_⟩
            simp [namedBefore, hw]
      · rw [if_neg hw] at h
        by_cases hc : a.head? = some ':'
        · rw [if_pos hc] at h
          cases bs with
          | nil => simp only [List.head?_nil] at h; cases h
          | cons b bs' =>
              simp only [List.head?_cons, List.tail_cons] at h
              by_cases hbe : b = []
              · rw [if_pos hbe] at h; cases h
              · rw [if_neg hbe] at h
                cases hd : decodeURIComponentList b with
                | none => rw [hd] at h; cases h
                | some d =>
                    rw [hd] at h
                    obtain ⟨pres, named⟩ := ih bs' _ m h
                    refine ⟨?_, ?_⟩
                    · intro k hk
                      exact pres k (isSome_assocGet_assocSet acc _ k _ hk)
                    · intro k hk
                      simp only [namedBefore, if_neg hw, if_pos hc, List.mem_cons] at hk
                      rcases hk with he | hk
                      · subst he
                        exact pres _ (by rw [assocGet_assocSet_self]; rfl)
                      · exact named k hk
        · rw [if_neg hc] at h
          cases bs with
          | nil => simp only [List.head?_nil] at h; cases h
          | cons b bs' =>
              simp only [List.head?_cons, List.tail_cons] at h
              by_cases hab : a = b
              · rw [if_pos hab] at h
                obtain ⟨pres, named⟩ := ih bs' acc m h
                refine ⟨pres, ?_⟩
                intro k hk
                simp only [namedBefore, if_neg hw, if_neg hc] at hk
                exact named k hk
              · rw [if_neg hab] at h; cases h

/-- A successful matching walk against a pattern whose only `*` is the
final segment, with exactly one fewer URL segment than pattern segments,
binds the wildcard key to the empty string. -/
theorem matchSegs_wildcard_empty (as : List (List Char)) :
    ∀ (bs : List (List Char)) (acc : List (String × String)) (m : List (String × String)),
      as.getLast? = some ['*'] → ['*'] ∉ as.dropLast → bs.length = as.length - 1 →
      matchSegs as bs acc = .matched m → assocGet m "*" = some "" := by
  induction as with
  | nil => intro bs acc m h1; simp at h1
  | cons a as ih =>
      intro bs acc m h1 h2 h3 h4
      cases as with
      | nil =>
          have ha : a = ['*'] := by simpa using h1
          subst ha
          have hb : bs = [] := by simpa using h3
          subst hb
          have hstep : matchSegs [['*']] [] acc = .matched (assocSet acc "*" ⟨[]⟩) := rfl
          rw [hstep] at h4
          simp only [MatchResult.matched.injEq] at h4
          subst h4
          rw [assocGet_assocSet_self]
      | cons a2 as2 =>
          have hlast : (a2 :: as2).getLast? = some ['*'] := by
            rwa [List.getLast?_cons_cons] at h1
          have hdl : (a :: a2 :: as2).dropLast = a :: (a2 :: as2).dropLast := by simp
          rw [hdl] at h2
          have ha : ¬ a = ['*'] := fun h => h2 (h ▸ List.mem_cons_self a _)
          have h2' : ['*'] ∉ (a2 :: as2).dropLast := fun h => h2 (List.mem_cons_of_mem a h)
          cases bs with
          | nil => simp at h3
          | cons b bs' =>
              have hlen : bs'.length = (a2 :: as2).length - 1 := by
                simp only [List.length_cons] at h3 ⊢
                omega
              simp only [matchSegs, if_neg ha] at h4
              by_cases hc : a.head? = some ':'
              · rw [if_pos hc] at h4
                simp only [List.head?_cons, List.tail_cons] at h4
                by_cases hbe : b = []
                · rw [if_pos hbe] at h4; cases h4
                · rw [if_neg hbe] at h4
                  cases hd : decodeURIComponentList b with
                  | none => rw [hd] at h4; cases h4
                  | some d =>
                      rw [hd] at h4
                      exact ih bs' _ m hlast h2' hlen h4
              · rw [if_neg hc] at h4
                simp only [List.head?_cons, List.tail_cons] at h4
                by_cases hab : a = b
                · rw [if_pos hab] at h4
                  exact ih bs' acc m hlast h2' hlen h4
                · rw [if_neg hab] at h4; cases h4

/-! ### Lemmas about the router -/

theorem fetchPage_hit (fetchFn : String → Except String String) (parse : String → Obj)
    (cache : Cache) (url : String) (isPrefetch : Bool) (e : Obj)
    (h : assocGet cache url = some e) :
    fetchPage fetchFn parse cache url isPrefetch = ⟨cache, [], [], .ok e⟩ := by
  unfold fetchPage
  rw [h]

theorem fetchPage_miss_err (fetchFn : String → Except String String) (parse : String → Obj)
    (cache : Cache) (url err : String)
    (h1 : assocGet cache url = none) (h2 : fetchFn url = .error err) :
    fetchPage fetchFn parse cache url false =
      ⟨assocSet cache url (errorFallback err), [], [url], .ok (errorFallback err)⟩ := by
  unfold fetchPage
  rw [h1, h2]
  simp

theorem fetchPage_miss_err_prefetch (fetchFn : String → Except String String)
    (parse : String → Obj) (cache : Cache) (url err : String)
    (h1 : assocGet cache url = none) (h2 : fetchFn url = .error err) :
    fetchPage fetchFn parse cache url true =
      ⟨cache, [.prefetchError url err], [url], .error err⟩ := by
  unfold fetchPage
  rw [h1, h2]
  simp

/-- The route loop of `navigate`, characterized: when no pattern throws,
the final content is the overlay fold of exactly the matching handlers
over the fetched content, and the emitted `route:` events list exactly
the matching patterns with their params, in registration order. -/
theorem runRoutes_spec (matchUrl url : String) (routes : List (String × Handler)) (fd : Obj)
    (h : ∀ pr ∈ routes, parsePath pr.1 matchUrl ≠ .thrown) :
    (runRoutes matchUrl url routes fd).2 =
      .ok (overlayFold fd (matchingWithParams routes matchUrl)) ∧
    (runRoutes matchUrl url routes fd).1.filterMap routeEvtInfo =
      (matchingWithParams routes matchUrl).map (fun x => (x.1, x.2.2)) := by
  induction routes generalizing fd with
  | nil => simp [runRoutes, matchingWithParams, overlayFold]
  | cons pr rest ih =>
      obtain ⟨pattern, cb⟩ := pr
      have hp := h (pattern, cb) (List.mem_cons_self _ _)
      have hrest : ∀ pr ∈ rest, parsePath pr.1 matchUrl ≠ .thrown :=
        fun pr hpr => h pr (List.mem_cons_of_mem _ hpr)
      cases hm : parsePath pattern matchUrl with
      | thrown => exact absurd hm hp
      | noMatch =>
          simp only [runRoutes, hm]
          have hmw : matchingWithParams ((pattern, cb) :: rest) matchUrl =
              matchingWithParams rest matchUrl := by
            simp [matchingWithParams, List.filterMap_cons, hm]
          rw [hmw]
          exact ih fd hrest
      | matched ps =>
          simp only [runRoutes, hm]
          have hmw : matchingWithParams ((pattern, cb) :: rest) matchUrl =
              (pattern, cb, ps) :: matchingWithParams rest matchUrl := by
            simp [matchingWithParams, List.filterMap_cons, hm]
          rw [hmw]
          obtain ⟨ih1, ih2⟩ := ih (applyResult fd (cb ps)) hrest
          refine ⟨?_, ?_⟩
          · simpa [overlayFold] using ih1
          · simp only [List.filterMap_cons, routeEvtInfo, List.map_cons]
            rw [ih2]

/-! ### Claim theorems -/

/-- C1: during `navigate`, every registered route pattern matching the
normalized URL has its handler invoked, in registration order; a string
result replaces the body, an object result is shallow-merged, and each
later handler sees the accumulated overlay (general characterization of
the route loop), and in the worked example — routes `/posts/:id` then
`/posts/*`, navigation to `/posts/7`, first handler overlaying
`{title: "A"}`, second returning `"B"` — the final payload has body `"B"`
and title `"A"` and both route events fire in registration order. -/
theorem navigate_route_overlay (matchUrl url : String) (routes : List (String × Handler))
    (fd : Obj) (h : ∀ pr ∈ routes, parsePath pr.1 matchUrl ≠ .thrown) :
    ((runRoutes matchUrl url routes fd).2 =
        .ok (overlayFold fd (matchingWithParams routes matchUrl)) ∧
      (runRoutes matchUrl url routes fd).1.filterMap routeEvtInfo =
        (matchingWithParams routes matchUrl).map (fun x => (x.1, x.2.2))) ∧
    ((navigate postsDemoFetch postsDemoParse true postsDemoRoutes false "" [] "/posts/7"
        false).result = .ok [("url", "/posts/7"), ("title", "A"), ("body", "B")] ∧
      ((navigate postsDemoFetch postsDemoParse true postsDemoRoutes false "" [] "/posts/7"
          false).events.filterMap routeEvtInfo).map Prod.fst = ["/posts/:id", "/posts/*"]) :=
  ⟨runRoutes_spec matchUrl url routes fd h, by decide, by decide⟩

theorem navigate_route_overlay_witness :
    ((runRoutes "/posts/7.html" "/posts/7" postsDemoRoutes
          [("title", "Home"), ("body", "orig")]).2 =
        .ok (overlayFold [("title", "Home"), ("body", "orig")]
          (matchingWithParams postsDemoRoutes "/posts/7.html")) ∧
      (runRoutes "/posts/7.html" "/posts/7" postsDemoRoutes
          [("title", "Home"), ("body", "orig")]).1.filterMap routeEvtInfo =
        (matchingWithParams postsDemoRoutes "/posts/7.html").map (fun x => (x.1, x.2.2))) ∧
    ((navigate postsDemoFetch postsDemoParse true postsDemoRoutes false "" [] "/posts/7"
        false).result = .ok [("url", "/posts/7"), ("title", "A"), ("body", "B")] ∧
      ((navigate postsDemoFetch postsDemoParse true postsDemoRoutes false "" [] "/posts/7"
          false).events.filterMap routeEvtInfo).map Prod.fst = ["/posts/:id", "/posts/*"]) :=
  navigate_route_overlay "/posts/7.html" "/posts/7" postsDemoRoutes
    [("title", "Home"), ("body", "orig")] (by decide)

/-- C2 (counterexample): the claim says `parsePath` never throws, but a
URL segment with a malformed percent-escape at a named-parameter position
makes the source call `decodeURIComponent("%")`, which throws `URIError`. -/
theorem parsePath_throws_on_malformed_escape :
    parsePath "/users/:id" "/users/%" = .thrown := by decide

/-- C2 (amended): for every pattern and URL, `parsePath` either throws a
URI-decoding error, returns no-match, or returns a parameter mapping that
binds every named parameter the pattern declares before its first `*`
segment; a failing segment always yields no-match with no params
exposed. -/
theorem parsePath_result_cases (pattern url : String) :
    parsePath pattern url = .thrown ∨ parsePath pattern url = .noMatch ∨
    ∃ m, parsePath pattern url = .matched m ∧
      ∀ k ∈ namedBefore (pSegs pattern), (assocGet m k).isSome := by
  cases hm : parsePath pattern url with
  | thrown => exact Or.inl rfl
  | noMatch => exact Or.inr (Or.inl rfl)
  | matched m =>
      refine Or.inr (Or.inr ⟨m, rfl, ?_⟩)
      simp only [parsePath] at hm
      by_cases hc1 : ¬((pSegs pattern).getLast? = some ['*']) ∧
          (pSegs pattern).length ≠ (pSegs url).length
      · rw [if_pos hc1] at hm; cases hm
      · rw [if_neg hc1] at hm
        by_cases hc2 : (pSegs pattern).getLast? = some ['*'] ∧
            (pSegs url).length < (pSegs pattern).length - 1
        · rw [if_pos hc2] at hm; cases hm
        · rw [if_neg hc2] at hm
          exact (matchSegs_complete (pSegs pattern) (pSegs url) [] m hm).2

/-- C3 (counterexample): normalization is not idempotent — one pass
strips only one `.html` suffix, so `/a.html.html` normalizes to
`/a.html`, which another pass shortens again to `/a`. -/
theorem normalizePath_not_idempotent :
    normalizePath (normalizePath "/a.html.html") ≠ normalizePath "/a.html.html" := by decide

/-- C3 (amended): normalization is idempotent on every path whose
normalized form does not still end (case-insensitively) in `.html` or
`/index` — only such stacked strippable suffixes defeat idempotence. -/
theorem normalizePath_idem_of_stable (s : String)
    (h1 : ¬ endsWithCI (normalizePath s).data htmlSfx)
    (h2 : ¬ endsWithCI (normalizePath s).data indexSfx) :
    normalizePath (normalizePath s) = normalizePath s := by
  have hd : (normalizePath s).data = normList s.data := rfl
  show (⟨normList (normalizePath s).data⟩ : String) = ⟨normList s.data⟩
  rw [hd] at h1 h2 ⊢
  exact congrArg String.mk (normList_idem s.data h1 h2)

theorem normalizePath_idem_witness :
    normalizePath (normalizePath "/docs/") = normalizePath "/docs/" :=
  normalizePath_idem_of_stable "/docs/" (by decide) (by decide)

/-- C4: when the fetch issued for a prefetch fails, the cache is left
unchanged (no entry is written for the URL), the dedicated
`prefetch:error` event is emitted, and the rejection is swallowed inside
`prefetch` (its promise resolves normally). -/
theorem prefetch_failure_no_cache (fetchFn : String → Except String String)
    (parse : String → Obj) (cache : Cache) (url err : String)
    (h1 : assocGet cache url = none) (h2 : fetchFn url = .error err) :
    (prefetch fetchFn parse cache url).cache = cache ∧
    assocGet (prefetch fetchFn parse cache url).cache url = none ∧
    (prefetch fetchFn parse cache url).events = [.prefetchError url err] ∧
    (prefetch fetchFn parse cache url).result = .ok () := by
  have hf := fetchPage_miss_err_prefetch fetchFn parse cache url err h1 h2
  simp only [prefetch, h1, hf]
  exact ⟨trivial, trivial, trivial, trivial⟩

theorem prefetch_failure_no_cache_witness :
    (prefetch (fun _ => .error "boom") postsDemoParse [] "/broken").cache = [] ∧
    assocGet (prefetch (fun _ => .error "boom") postsDemoParse [] "/broken").cache "/broken" =
      none ∧
    (prefetch (fun _ => .error "boom") postsDemoParse [] "/broken").events =
      [.prefetchError "/broken" "boom"] ∧
    (prefetch (fun _ => .error "boom") postsDemoParse [] "/broken").result = .ok () :=
  prefetch_failure_no_cache (fun _ => .error "boom") postsDemoParse [] "/broken" "boom"
    rfl rfl

/-- C5 (counterexample): a non-2xx response — which the claim counts
among fetch failures — does not produce the `{title: "Error"}` fallback:
`fetchPage` never reads `res.ok` or `res.status`, so the 404 page's body
is parsed and cached as an ordinary entry whose title is
`"404 Not Found"`, not `"Error"`. -/
theorem navigate_non2xx_no_error_fallback :
    assocGet (navigateHTTP demo404Fetch demo404Parse true [] false "" [] "/broken"
        false).cache "/broken" = some [("title", "404 Not Found"), ("body", "missing")] ∧
    (navigateHTTP demo404Fetch demo404Parse true [] false "" [] "/broken" false).result =
      .ok [("url", "/broken"), ("title", "404 Not Found"), ("body", "missing")] ∧
    assocGet [("title", "404 Not Found"), ("body", "missing")] "title" ≠ some "Error" := by
  decide

/-- C5 (amended): when the fetch promise of a real navigation rejects
(transport error), `navigate` does not abort: it renders a payload built
from the synthesized fallback (title `"Error"`, body containing the
error text), caches the fallback under the navigated URL, issued exactly
one fetch, and a second `navigate` to the same URL issues no fetch at
all; a non-2xx response, by contrast, is not detected as a failure — its
body is parsed and cached as ordinary content (final conjunct). -/
theorem navigate_fetch_rejection_fallback
    (fetchFn fetchFn2 : String → Except String FetchResponse)
    (parse : String → Obj) (ext : Bool) (routes : List (String × Handler)) (hnav : Bool)
    (docTitle : String) (cache : Cache) (url err : String) (replace replace2 : Bool)
    (h1 : assocGet cache url = none) (h2 : fetchFn url = .error err)
    (h3 : ∀ pr ∈ routes, parsePath pr.1 (normalizeUrl ext url) ≠ .thrown) :
    (navigateHTTP fetchFn parse ext routes hnav docTitle cache url replace).result =
      .ok (objMerge [("url", url)]
        (overlayFold (errorFallback err) (matchingWithParams routes (normalizeUrl ext url)))) ∧
    assocGet (navigateHTTP fetchFn parse ext routes hnav docTitle cache url replace).cache url =
      some (errorFallback err) ∧
    assocGet (errorFallback err) "title" = some "Error" ∧
    (navigateHTTP fetchFn parse ext routes hnav docTitle cache url replace).fetchLog = [url] ∧
    (navigateHTTP fetchFn2 parse ext routes hnav docTitle
      (navigateHTTP fetchFn parse ext routes hnav docTitle cache url replace).cache
      url replace2).fetchLog = [] ∧
    assocGet (navigateHTTP demo404Fetch demo404Parse true [] false "" [] "/broken"
        false).cache "/broken" = some [("title", "404 Not Found"), ("body", "missing")] := by
  have h2' : asTextFetch fetchFn url = .error err := by
    simp [asTextFetch, h2]
  have hf := fetchPage_miss_err (asTextFetch fetchFn) parse cache url err h1 h2'
  obtain ⟨hr1, _⟩ := runRoutes_spec (normalizeUrl ext url) url routes (errorFallback err) h3
  have hcache : (navigateHTTP fetchFn parse ext routes hnav docTitle cache url replace).cache =
      assocSet cache url (errorFallback err) := by
    simp only [navigateHTTP, navigate, hf, hr1]
  have hget : assocGet (assocSet cache url (errorFallback err)) url =
      some (errorFallback err) := assocGet_assocSet_self cache url (errorFallback err)
  refine ⟨?_, ?_, rfl, ?_, ?_, by decide⟩
  · simp only [navigateHTTP, navigate, hf, hr1]
  · rw [hcache]; exact hget
  · simp only [navigateHTTP, navigate, hf, hr1]
  · rw [hcache]
    have hf2 := fetchPage_hit (asTextFetch fetchFn2) parse
      (assocSet cache url (errorFallback err)) url false (errorFallback err) hget
    simp only [navigateHTTP, navigate, hf2, hr1]

theorem navigate_fetch_rejection_fallback_witness :
    (navigateHTTP demoRejectFetch postsDemoParse true [] false "" [] "/broken"
        false).result =
      .ok (objMerge [("url", "/broken")]
        (overlayFold (errorFallback "boom")
          (matchingWithParams [] (normalizeUrl true "/broken")))) ∧
    assocGet (navigateHTTP demoRejectFetch postsDemoParse true [] false "" [] "/broken"
        false).cache "/broken" = some (errorFallback "boom") ∧
    assocGet (errorFallback "boom") "title" = some "Error" ∧
    (navigateHTTP demoRejectFetch postsDemoParse true [] false "" [] "/broken"
        false).fetchLog = ["/broken"] ∧
    (navigateHTTP demoOkFetch postsDemoParse true [] false ""
      (navigateHTTP demoRejectFetch postsDemoParse true [] false "" [] "/broken"
        false).cache "/broken" false).fetchLog = [] ∧
    assocGet (navigateHTTP demo404Fetch demo404Parse true [] false "" [] "/broken"
        false).cache "/broken" = some [("title", "404 Not Found"), ("body", "missing")] :=
  navigate_fetch_rejection_fallback demoRejectFetch demoOkFetch postsDemoParse true [] false ""
    [] "/broken" "boom" false false rfl rfl (by decide)

/-- C6: for every URL whose cache entry is already populated, a
subsequent `navigate` to it issues no fetch through the transport and
renders content built from the cached entry (the cached object seeds the
route-handler overlay fold). -/
theorem navigate_cache_hit_no_fetch (fetchFn : String → Except String String)
    (parse : String → Obj) (ext : Bool) (routes : List (String × Handler)) (hnav : Bool)
    (docTitle : String) (cache : Cache) (url : String) (e : Obj) (replace : Bool)
    (h1 : assocGet cache url = some e)
    (h2 : ∀ pr ∈ routes, parsePath pr.1 (normalizeUrl ext url) ≠ .thrown) :
    (navigate fetchFn parse ext routes hnav docTitle cache url replace).fetchLog = [] ∧
    (navigate fetchFn parse ext routes hnav docTitle cache url replace).result =
      .ok (objMerge [("url", url)]
        (overlayFold e (matchingWithParams routes (normalizeUrl ext url)))) := by
  have hf := fetchPage_hit fetchFn parse cache url false e h1
  obtain ⟨hr1, _⟩ := runRoutes_spec (normalizeUrl ext url) url routes e h2
  constructor
  · simp only [navigate, hf, hr1]
  · simp only [navigate, hf, hr1]

theorem navigate_cache_hit_no_fetch_witness :
    (navigate postsDemoFetch postsDemoParse true [] false ""
        [("/p", [("title", "T"), ("body", "B")])] "/p" false).fetchLog = [] ∧
    (navigate postsDemoFetch postsDemoParse true [] false ""
        [("/p", [("title", "T"), ("body", "B")])] "/p" false).result =
      .ok (objMerge [("url", "/p")]
        (overlayFold [("title", "T"), ("body", "B")]
          (matchingWithParams [] (normalizeUrl true "/p")))) :=
  navigate_cache_hit_no_fetch postsDemoFetch postsDemoParse true [] false ""
    [("/p", [("title", "T"), ("body", "B")])] "/p" [("title", "T"), ("body", "B")] false
    rfl (by decide)

/-- C7: `parsePath "/users/:id" "/users/42"` binds `id` to the decoded
segment `"42"`; `parsePath "/users/:id" "/users/"` is no-match (the
normalized URL has one segment against two pattern segments); and since
both sides are normalized, `parsePath "/about" "/about/index.html"`
succeeds. -/
theorem parsePath_named_param_examples :
    parsePath "/users/:id" "/users/42" = .matched [("id", "42")] ∧
    parsePath "/users/:id" "/users/" = .noMatch ∧
    parsePath "/about" "/about/index.html" = .matched [] := by decide

/-- C8: a pattern whose last segment is `*` with `n` segments rejects
every URL with fewer than `n - 1` segments, and on success the remaining
URL segments are percent-decoded, rejoined with `/` and stored under the
`*` key: `parsePath "/files/*" "/files/a/b%2Fc"` yields
`{"*": "a/b/c"}`. -/
theorem parsePath_wildcard_min_segments (pattern url : String)
    (h1 : (pSegs pattern).getLast? = some ['*'])
    (h2 : (pSegs url).length < (pSegs pattern).length - 1) :
    parsePath pattern url = .noMatch ∧
    parsePath "/files/*" "/files/a/b%2Fc" = .matched [("*", "a/b/c")] := by
  constructor
  · simp only [parsePath]
    rw [if_neg (fun hcon => hcon.1 h1), if_pos ⟨h1, h2⟩]
  · decide

theorem parsePath_wildcard_min_segments_witness :
    parsePath "/a/b/*" "/x" = .noMatch ∧
    parsePath "/files/*" "/files/a/b%2Fc" = .matched [("*", "a/b/c")] :=
  parsePath_wildcard_min_segments "/a/b/*" "/x" (by decide) (by decide)

/-- C9 (code bug evaluation): `setPrefetchOnHover(false)` does clear the
bookkeeping map and cancel pending timers (so a previously scheduled
timer firing is a no-op), but the hover listener never re-checks the
flag, so a hover-enter after disabling still fires a prefetch — with a
zero delay the router constructed with hover-prefetch on performs
`prefetch("/page")` even though prefetch-on-hover was just disabled; the
last conjunct shows the same timer does fire when not cancelled. -/
theorem setPrefetchOnHover_disable_eval :
    (hoverEnter (setPrefetchOnHover (initSched true 0) false) 1 "/page" true).prefetchCalls =
      ["/page"] ∧
    (setPrefetchOnHover (hoverEnter (initSched true 5) 1 "/page" true) false).prefetchTimeouts =
      [] ∧
    (timerFire (setPrefetchOnHover (hoverEnter (initSched true 5) 1 "/page" true) false)
        1).prefetchCalls = [] ∧
    (timerFire (hoverEnter (initSched true 5) 1 "/page" true) 1).prefetchCalls = ["/page"] := by
  decide

/-- C10: a wildcard pattern (single `*`, in final position) also matches
a URL with exactly `n - 1` segments, in which case the wildcard capture
is the empty string — in particular `parsePath "/files/*" "/files"`
yields `{"*": ""}` rather than no-match. -/
theorem parsePath_wildcard_empty_capture (pattern url : String) (m : List (String × String))
    (h1 : (pSegs pattern).getLast? = some ['*'])
    (h2 : ['*'] ∉ (pSegs pattern).dropLast)
    (h3 : (pSegs url).length = (pSegs pattern).length - 1)
    (h4 : parsePath pattern url = .matched m) :
    assocGet m "*" = some "" ∧
    parsePath "/files/*" "/files" = .matched [("*", "")] := by
  refine ⟨?_, by decide⟩
  simp only [parsePath] at h4
  rw [if_neg (fun hcon => hcon.1 h1)] at h4
  rw [if_neg (fun hcon => by rw [h3] at hcon; exact Nat.lt_irrefl _ hcon.2)] at h4
  exact matchSegs_wildcard_empty (pSegs pattern) (pSegs url) [] m h1 h2 h3 h4

theorem parsePath_wildcard_empty_capture_witness :
    assocGet [("*", "")] "*" = some "" ∧
    parsePath "/files/*" "/files" = .matched [("*", "")] :=
  parsePath_wildcard_empty_capture "/files/*" "/files" [("*", "")] (by decide) (by decide)
    (by decide) (by decide)

end TinyRouter
